import Mathlib

/-!
Shallow embedding of the SimpleFib study planner (`simplefib/` sources:
`uid.py`, `db.py`, `fib.py`, `predict.py`, `cli.py`).

Python exceptions are embedded as an explicit error type; methods that can
mutate `self` are embedded as state-passing functions returning the
post-state of the object together with the raised exception, if any.
Python `float` is embedded as `ℚ` (every literal the program manipulates in
the verified claims is exactly representable), Python `int` as `ℤ`, and
`datetime` values as microseconds since the epoch (CPython datetimes have
microsecond resolution).
-/

/-- The Python exceptions the embedded code can raise: `ValueError`
(raised by `FibNumbers.getNthFibNumber`), `KeyError` (raised by a dict
subscript on a missing key, as in `Predictor.predict`), and
`AssertionError` (raised by the `assert` statements guarding the
`Database` CRUD methods and `cli.completeTask`). -/
inductive PyErr where
  | valueError (msg : String)
  | keyError (key : String)
  | assertionError (msg : String)
deriving DecidableEq, Repr

/-- `uid.UID`: a wrapper around an identifier string.  Equality and hashing
are by string value (`UID.__eq__` / `UID.__hash__`). -/
structure UID where
  uid : String
deriving DecidableEq, Repr

/-- `UID.toString`. -/
def UID.toString (u : UID) : String := u.uid

/-- `UID.fromString`. -/
def UID.fromString (s : String) : UID := ⟨s⟩

/-- A CPython `datetime`, represented by its microseconds since the epoch.
All datetimes the program builds carry `tz=timezone.utc`. -/
structure DateTime where
  usec : ℤ
deriving DecidableEq, Repr

/-- `d + timedelta(days = n)`: one day is 86_400_000_000 microseconds. -/
def DateTime.addDays (d : DateTime) (n : ℤ) : DateTime :=
  ⟨d.usec + n * 86400000000⟩

/-- `db.Subject`: `uid`, `name`, `active`, `weight` (float), `bias` (int). -/
structure Subject where
  uid : UID
  name : String
  active : Bool
  weight : ℚ
  bias : ℤ
deriving DecidableEq, Repr

/-- `db.NEW_TOPIC_DEFAULT_FIB`. -/
def NEW_TOPIC_DEFAULT_FIB : ℤ := 2

/-- `db.Topic`: `uid`, `name`, `subjectUID`, `active`, `lastStudy`
(datetime), `fibNumber` (int). -/
structure Topic where
  uid : UID
  name : String
  subjectUID : UID
  active : Bool
  lastStudy : DateTime
  fibNumber : ℤ
deriving DecidableEq, Repr

/-- `Topic.__init__`.  CPython evaluates the default expression
`dTime: datetime = datetime.now(tz=timezone.utc)` ONCE, when the `class
Topic` body is executed at module import; that single datetime value is
reused as the default for every later construction.  The embedding makes
that value the explicit parameter `moduleLoadTime`; passing `dTime = none`
corresponds to calling `Topic(...)` without a `dTime` argument. -/
def Topic.init (moduleLoadTime : DateTime) (uid : UID) (name : String)
    (subjectUID : UID) (active : Bool) (fibNumber : ℤ := NEW_TOPIC_DEFAULT_FIB)
    (dTime : Option DateTime := none) : Topic :=
  { uid := uid, name := name, subjectUID := subjectUID, active := active,
    lastStudy := dTime.getD moduleLoadTime, fibNumber := fibNumber }

/-- `db.Record`: the closed set of record variants stored in a `Database`
(the abstract base class has exactly the two subclasses
`Subject` and `Topic`). -/
inductive Record where
  | subject (s : Subject)
  | topic (t : Topic)
deriving DecidableEq, Repr

/-- `record.uid` (set by `Record.__init__`). -/
def Record.uid : Record → UID
  | .subject s => s.uid
  | .topic t => t.uid

/-- A runtime record type, as used by `type(record)` checks and the
`queryTypes` argument of `Database.query`. -/
inductive RecordKind where
  | subject
  | topic
deriving DecidableEq, Repr

/-- `type(record)`. -/
def Record.kind : Record → RecordKind
  | .subject _ => .subject
  | .topic _ => .topic

/-! ### Fibonacci engine (`fib.py`) -/

/-- `FibNumbers.__init__`: the memo starts as `[1, 1]`
("the first fib number is 1; there is no zeroth fib number"). -/
def fibInit : List ℤ := [1, 1]

/-- The `for i in range(len(self.__fibNumbers), n)` loop body of
`getNthFibNumber`: each iteration appends
`fibNumbers[i-1] + fibNumbers[i-2]`, where `i` is the current length.
`fuel` is the number of remaining iterations, `n - len(fibNumbers)`. -/
def extendFib (l : List ℤ) : ℕ → List ℤ
  | 0 => l
  | fuel + 1 =>
      extendFib (l ++ [l.getD (l.length - 1) 0 + l.getD (l.length - 2) 0]) fuel

/-- `FibNumbers.getNthFibNumber(n)`, with the memo list `s` passed
explicitly (it is `self.__fibNumbers`); returns the result together with
the updated memo. -/
def getNthFibNumber (s : List ℤ) (n : ℤ) : Except PyErr (ℤ × List ℤ) :=
  if n = 0 then
    .error (.valueError "For our cases, there is no zeroth fib number")
  else if n < 0 then
    .error (.valueError "Can't have a negative fib number.")
  else if n ≤ s.length then
    .ok (s.getD (n - 1).toNat 0, s)
  else
    let s' := extendFib s (n.toNat - s.length)
    .ok (s'.getD (n - 1).toNat 0, s')

/-! ### Python rounding -/

/-- Python 3's built-in `round` to an integer, on an exactly-representable
value: round-half-to-even (banker's rounding). -/
def pythonRound (q : ℚ) : ℤ :=
  if q - ⌊q⌋ < 1 / 2 then ⌊q⌋
  else if 1 / 2 < q - ⌊q⌋ then ⌊q⌋ + 1
  else if ⌊q⌋ % 2 = 0 then ⌊q⌋ else ⌊q⌋ + 1

/-! ### JSON dictionaries (`Record.toJSON` / `Record.fromJSON`)

A Python JSON dict is embedded as an association list from field name to
value.  The `lastStudy` field is stored in Python as the ISO-8601 string
`datetime.isoformat()` and read back with `datetime.fromisoformat()`; for
timezone-aware datetimes this stdlib pair is exact and lossless, so the
embedding carries the datetime value itself in the `jdt` leaf. -/

inductive JValue where
  | jstr (s : String)
  | jbool (b : Bool)
  | jnum (q : ℚ)
  | jint (n : ℤ)
  | jdt (d : DateTime)
deriving DecidableEq, Repr

/-- A JSON object: field names mapped to values. -/
def JDict : Type := List (String × JValue)

/-- `dictIn[key]` expecting a string: a missing key raises `KeyError`. -/
def JDict.getStr (d : JDict) (k : String) : Except PyErr String :=
  match List.lookup k d with
  | some (.jstr s) => .ok s
  | some _ => .error (.valueError k)
  | none => .error (.keyError k)

/-- `dictIn[key]` expecting a bool: a missing key raises `KeyError`. -/
def JDict.getBool (d : JDict) (k : String) : Except PyErr Bool :=
  match List.lookup k d with
  | some (.jbool b) => .ok b
  | some _ => .error (.valueError k)
  | none => .error (.keyError k)

/-- `dictIn[key]` expecting a float: a missing key raises `KeyError`. -/
def JDict.getNum (d : JDict) (k : String) : Except PyErr ℚ :=
  match List.lookup k d with
  | some (.jnum q) => .ok q
  | some _ => .error (.valueError k)
  | none => .error (.keyError k)

/-- `dictIn[key]` expecting an int: a missing key raises `KeyError`. -/
def JDict.getInt (d : JDict) (k : String) : Except PyErr ℤ :=
  match List.lookup k d with
  | some (.jint n) => .ok n
  | some _ => .error (.valueError k)
  | none => .error (.keyError k)

/-- `datetime.fromisoformat(dictIn[key])`: a missing key raises
`KeyError`. -/
def JDict.getDt (d : JDict) (k : String) : Except PyErr DateTime :=
  match List.lookup k d with
  | some (.jdt t) => .ok t
  | some _ => .error (.valueError k)
  | none => .error (.keyError k)

/-- `Subject.toJSON`. -/
def Subject.toJSON (s : Subject) : JDict :=
  [("uid", .jstr s.uid.toString),
   ("name", .jstr s.name),
   ("active", .jbool s.active),
   ("weight", .jnum s.weight),
   ("bias", .jint s.bias),
   ("type", .jstr "subject")]

/-- `Subject.fromJSON`. -/
def Subject.fromJSON (dictIn : JDict) : Except PyErr Subject := do
  let uid ← dictIn.getStr "uid"
  let name ← dictIn.getStr "name"
  let active ← dictIn.getBool "active"
  let weight ← dictIn.getNum "weight"
  let bias ← dictIn.getInt "bias"
  return { uid := UID.fromString uid, name := name, active := active,
           weight := weight, bias := bias }

/-- `Topic.toJSON`. -/
def Topic.toJSON (t : Topic) : JDict :=
  [("uid", .jstr t.uid.toString),
   ("name", .jstr t.name),
   ("subjectUID", .jstr t.subjectUID.toString),
   ("active", .jbool t.active),
   ("lastStudy", .jdt t.lastStudy),
   ("fibNumber", .jint t.fibNumber),
   ("type", .jstr "topic")]

/-- `Topic.fromJSON` (it passes `dTime` explicitly, so the constructor
default is not involved). -/
def Topic.fromJSON (dictIn : JDict) : Except PyErr Topic := do
  let uid ← dictIn.getStr "uid"
  let name ← dictIn.getStr "name"
  let subjectUID ← dictIn.getStr "subjectUID"
  let active ← dictIn.getBool "active"
  let dTime ← dictIn.getDt "lastStudy"
  let fibNumber ← dictIn.getInt "fibNumber"
  return { uid := UID.fromString uid, name := name,
           subjectUID := UID.fromString subjectUID, active := active,
           lastStudy := dTime, fibNumber := fibNumber }

/-! ### Database (`db.Database`)

`self.recordDict` is a Python dict keyed by `record.uid`; it is embedded
as the list of its records in insertion order (the key of an entry is
always the record's own `uid` field, so storing the records suffices).
Methods that can mutate `self.recordDict` return the post-state of the
`Database` together with the exception raised, if any (Python's `assert`
raises before any mutation, so a failing call returns the pre-state). -/

structure Database where
  records : List Record
deriving DecidableEq, Repr

/-- `self.recordDict[record.uid] = record` on a dict: if the key is
already present its value is replaced in place, otherwise the entry is
appended in insertion order. -/
def dictSet (l : List Record) (r : Record) : List Record :=
  if l.any fun x => x.uid = r.uid then
    l.map fun x => if x.uid = r.uid then r else x
  else
    l ++ [r]

/-- `Database.__init__(records)`: starts from the empty dict and stores
each record keyed by its uid (duplicate uids: last write wins). -/
def Database.mk' (records : List Record) : Database :=
  ⟨records.foldl dictSet []⟩

/-- `uid in self.recordDict`. -/
def Database.containsKey (db : Database) (u : UID) : Bool :=
  db.records.any fun r => r.uid = u

/-- `Database.insert(record)`: asserts the uid is absent, then stores. -/
def Database.insert (db : Database) (r : Record) :
    Option PyErr × Database :=
  if db.containsKey r.uid then
    (some (.assertionError "Record already exists in database"), db)
  else
    (none, ⟨dictSet db.records r⟩)

/-- `Database.delete(uid)`: asserts the uid is present, then removes. -/
def Database.delete (db : Database) (u : UID) :
    Option PyErr × Database :=
  if db.containsKey u then
    (none, ⟨db.records.filter fun r => r.uid ≠ u⟩)
  else
    (some (.assertionError "Record does not exist in database"), db)

/-- `Database.get(uid)`: asserts the uid is present, then returns the
stored record (it does not mutate the store). -/
def Database.get (db : Database) (u : UID) : Except PyErr Record :=
  match db.records.find? fun r => r.uid = u with
  | some r => .ok r
  | none => .error (.assertionError "Record does not exist in database")

/-- `Database.update(record)`: asserts the uid is present, then replaces
the stored value entirely. -/
def Database.update (db : Database) (r : Record) :
    Option PyErr × Database :=
  if db.containsKey r.uid then
    (none, ⟨dictSet db.records r⟩)
  else
    (some (.assertionError "Record does not exist in database"), db)

/-- `Database.query(queryTypes, query)`: collects the records whose
runtime type is in `queryTypes` and that satisfy the callable, and builds
a new `Database` from them; the method body never assigns to
`self.recordDict`, so the second component (the post-state of `self`) is
the unchanged `db`. -/
def Database.query (db : Database) (queryTypes : List RecordKind)
    (q : Record → Bool) : Database × Database :=
  (Database.mk' (db.records.filter fun r => queryTypes.contains r.kind && q r),
   db)

/-! ### Predictor (`predict.py`) -/

/-- Generic dict assignment `d[k] = v` on an association list: replace in
place if the key is present, append otherwise. -/
def assocSet (l : List (UID × α)) (k : UID) (v : α) : List (UID × α) :=
  if l.any fun x => x.1 = k then
    l.map fun x => if x.1 = k then (k, v) else x
  else
    l ++ [(k, v)]

/-- Generic dict subscript `d[k]` on an association list (`none` models
the `KeyError` case). -/
def assocGet (l : List (UID × α)) (u : UID) : Option α :=
  match l with
  | [] => none
  | (k, v) :: rest => if k = u then some v else assocGet rest u

/-- The body of the first loop of `Predictor.predict`: a `Subject` record
is entered into the `subjectWAndTup` dict under its uid with its
`(weight, bias)` pair; other records are skipped
(`isinstance(subject, Subject)`). -/
def subjStep (acc : List (UID × (ℚ × ℤ))) : Record → List (UID × (ℚ × ℤ))
  | .subject s => assocSet acc s.uid (s.weight, s.bias)
  | .topic _ => acc

/-- The first loop of `Predictor.predict`: builds `subjectWAndTup`, the
dict from each Subject's uid to its `(weight, bias)` pair. -/
def subjectWAndTup (db : Database) : List (UID × (ℚ × ℤ)) :=
  db.records.foldl subjStep []

/-- `round(rawFibPred * subjectWeight + subjectBias)`, the day offset
computed for one topic inside `Predictor.predict`. -/
def actualPred (rawFibPred : ℤ) (subjectWeight : ℚ) (subjectBias : ℤ) : ℤ :=
  pythonRound ((rawFibPred : ℚ) * subjectWeight + (subjectBias : ℚ))

/-- The second loop of `Predictor.predict` over the database records,
building `resultDict`.  For each record of runtime type `Topic` it calls
`fibNumbers.getNthFibNumber(item.fibNumber)` (which can raise
`ValueError` and mutates the shared memo `fibS`), subscripts
`subjectWAndTup[item.subjectUID]` (which raises `KeyError` when the
subject uid is absent), and stores `now + timedelta(days=actualPred)`
under the topic's uid.  An exception aborts the loop; nothing is
returned in that case. -/
def predictLoop (subjT : List (UID × (ℚ × ℤ))) (now : DateTime) :
    List Record → List ℤ → List (UID × DateTime) →
    Except PyErr (List (UID × DateTime) × List ℤ)
  | [], fibS, acc => .ok (acc, fibS)
  | .subject _ :: rest, fibS, acc => predictLoop subjT now rest fibS acc
  | .topic t :: rest, fibS, acc =>
      match getNthFibNumber fibS t.fibNumber with
      | .error e => .error e
      | .ok (rawFibPred, fibS') =>
          match assocGet subjT t.subjectUID with
          | none => .error (.keyError t.subjectUID.uid)
          | some (subjectWeight, subjectBias) =>
              predictLoop subjT now rest fibS'
                (assocSet acc t.uid
                  (now.addDays (actualPred rawFibPred subjectWeight subjectBias)))

/-- `Predictor.predict()`, with the call time `now` and the shared
Fibonacci memo `fibS` passed explicitly.  Returns the mapping from topic
uid to predicted datetime together with the memo post-state. -/
def predict (now : DateTime) (db : Database) (fibS : List ℤ) :
    Except PyErr (List (UID × DateTime) × List ℤ) :=
  predictLoop (subjectWAndTup db) now db.records fibS []

/-! ### `cli.completeTask` (core effect on the database)

The surrounding prompts resolve a topic uid; the database effect is:
`topic = db.get(uid)`, `assert type(topic) == Topic`,
`topic.fibNumber += 1`, `db.update(topic)`. -/

def completeTopic (db : Database) (u : UID) : Option PyErr × Database :=
  match db.get u with
  | .error e => (some e, db)
  | .ok (.subject _) => (some (.assertionError "type(topic) == Topic"), db)
  | .ok (.topic t) =>
      db.update (.topic { t with fibNumber := t.fibNumber + 1 })

/-! ### Specification-side definitions

`fibSpec` is the mathematical 1-indexed Fibonacci sequence the spec
describes (`F(1) = F(2) = 1`, `F(n) = F(n-1) + F(n-2)`); `fibListUpTo k`
is its list of the first `k` terms, the shape every reachable state of the
`FibNumbers` memo has. -/

def fibSpec : ℕ → ℤ
  | 0 => 0
  | 1 => 1
  | n + 2 => fibSpec (n + 1) + fibSpec n

/-- The first `k` terms `[F(1), ..., F(k)]` of the Fibonacci sequence. -/
def fibListUpTo (k : ℕ) : List ℤ :=
  (List.range k).map fun i => fibSpec (i + 1)

/-- The reachable states of the `FibNumbers` memo: it always is the list
of the first `k` Fibonacci terms for some `k ≥ 2`. -/
def validFibState (s : List ℤ) : Prop :=
  ∃ k, 2 ≤ k ∧ s = fibListUpTo k

/-- Two records agree on every field except possibly `active` (they are
the same variant, with the same uid, name, and scheduling-relevant
data). -/
def sameUpToActive : Record → Record → Prop
  | .subject a, .subject b =>
      a.uid = b.uid ∧ a.name = b.name ∧ a.weight = b.weight ∧ a.bias = b.bias
  | .topic a, .topic b =>
      a.uid = b.uid ∧ a.name = b.name ∧ a.subjectUID = b.subjectUID ∧
        a.lastStudy = b.lastStudy ∧ a.fibNumber = b.fibNumber
  | _, _ => False

/-! Concrete databases used as counterexample or witness inputs. -/

/-- One subject `(weight = 2.5, bias = 0)` and one topic with
`fibNumber = 2` referencing it: the scenario of the spec's first
Predictor property. -/
def dbScenario : Database :=
  ⟨[.subject ⟨⟨"s"⟩, "Math", true, 5 / 2, 0⟩,
    .topic ⟨⟨"t"⟩, "Algebra", ⟨"s"⟩, true, ⟨0⟩, 2⟩]⟩

/-- One subject with `weight = -1, bias = 0` and one topic with
`fibNumber = 2` referencing it. -/
def dbNegWeight : Database :=
  ⟨[.subject ⟨⟨"s"⟩, "Math", true, -1, 0⟩,
    .topic ⟨⟨"t"⟩, "Algebra", ⟨"s"⟩, true, ⟨0⟩, 2⟩]⟩

/-- The same database after `completeTopic` on the topic: `fibNumber` is
3. -/
def dbNegWeightDone : Database :=
  ⟨[.subject ⟨⟨"s"⟩, "Math", true, -1, 0⟩,
    .topic ⟨⟨"t"⟩, "Algebra", ⟨"s"⟩, true, ⟨0⟩, 3⟩]⟩

/-- A database whose only topic references subject uid `"ghost"`, which no
subject in the database has. -/
def dbDangling : Database :=
  ⟨[.subject ⟨⟨"s"⟩, "Math", true, 1, 0⟩,
    .topic ⟨⟨"t"⟩, "Algebra", ⟨"ghost"⟩, true, ⟨0⟩, 2⟩]⟩

/-- A mixed database: one subject, one active topic, one inactive topic. -/
def dbMixed : Database :=
  ⟨[.subject ⟨⟨"s"⟩, "Math", true, 1, 0⟩,
    .topic ⟨⟨"t1"⟩, "Algebra", ⟨"s"⟩, true, ⟨0⟩, 2⟩,
    .topic ⟨⟨"t2"⟩, "Geometry", ⟨"s"⟩, false, ⟨0⟩, 3⟩]⟩

/-- `dbMixed` with every `active` flag flipped. -/
def dbMixedFlipped : Database :=
  ⟨[.subject ⟨⟨"s"⟩, "Math", false, 1, 0⟩,
    .topic ⟨⟨"t1"⟩, "Algebra", ⟨"s"⟩, false, ⟨0⟩, 2⟩,
    .topic ⟨⟨"t2"⟩, "Geometry", ⟨"s"⟩, true, ⟨0⟩, 3⟩]⟩

/-! ## Theorems -/

example : fibInit = fibListUpTo 2 := by rfl
example : getNthFibNumber fibInit 7 = .ok (13, [1, 1, 2, 3, 5, 8, 13]) := by rfl

/-- `round` of an integral value is that value. -/
theorem pythonRound_intCast (n : ℤ) : pythonRound (n : ℚ) = n := by
  simp [pythonRound, Int.floor_intCast]

/-- `round` of an exact half with even integer part rounds down
(`round(2.5) == 2` in Python 3). -/
theorem pythonRound_add_half_even (n : ℤ) (h : n % 2 = 0) :
    pythonRound ((n : ℚ) + 1 / 2) = n := by
  have hfl : ⌊(n : ℚ) + 1 / 2⌋ = n := by
    rw [Int.floor_eq_iff]
    constructor <;> norm_num
  have h2 : ((n : ℚ) + 1 / 2) - ((n : ℚ)) = 1 / 2 := by ring
  simp only [pythonRound, hfl, h2]
  norm_num [h]

example : pythonRound (5 / 2) = 2 := by
  rw [show (5 : ℚ) / 2 = ((2 : ℤ) : ℚ) + 1 / 2 by norm_num]
  exact pythonRound_add_half_even 2 (by decide)
example : pythonRound (5 * 1 + 5) = 10 := by
  rw [show (5 * 1 + 5 : ℚ) = ((10 : ℤ) : ℚ) by norm_num]
  exact pythonRound_intCast 10

/-! ### Fibonacci engine lemmas -/

theorem fibListUpTo_succ (k : ℕ) :
    fibListUpTo (k + 1) = fibListUpTo k ++ [fibSpec (k + 1)] := by
  simp [fibListUpTo, List.range_succ]

theorem length_fibListUpTo (k : ℕ) : (fibListUpTo k).length = k := by
  simp [fibListUpTo]

theorem fibListUpTo_getD (k m : ℕ) (h1 : 1 ≤ m) (h2 : m ≤ k) :
    (fibListUpTo k).getD (m - 1) 0 = fibSpec m := by
  have hlt : m - 1 < k := by omega
  rw [fibListUpTo, List.getD_eq_getElem?_getD, List.getElem?_map,
    List.getElem?_range hlt]
  simp [Nat.sub_add_cancel h1]

theorem fibSpec_rec (k : ℕ) (hk : 2 ≤ k) :
    fibSpec (k + 1) = fibSpec k + fibSpec (k - 1) := by
  obtain ⟨j, rfl⟩ : ∃ j, k = j + 2 := ⟨k - 2, by omega⟩
  rfl

theorem fibSpec_nonneg : ∀ n, 0 ≤ fibSpec n
  | 0 => le_refl 0
  | 1 => by norm_num [fibSpec]
  | n + 2 => by
      show 0 ≤ fibSpec (n + 1) + fibSpec n
      exact add_nonneg (fibSpec_nonneg (n + 1)) (fibSpec_nonneg n)

theorem fibSpec_le_succ : ∀ n, 1 ≤ n → fibSpec n ≤ fibSpec (n + 1)
  | 0, h => absurd h (by decide)
  | 1, _ => by norm_num [fibSpec]
  | n + 2, _ => by
      show fibSpec (n + 2) ≤ fibSpec (n + 2) + fibSpec (n + 1)
      exact le_add_of_nonneg_right (fibSpec_nonneg (n + 1))

theorem extendFib_fibListUpTo : ∀ (f k : ℕ), 2 ≤ k →
    extendFib (fibListUpTo k) f = fibListUpTo (k + f)
  | 0, k, _ => by simp [extendFib]
  | f + 1, k, hk => by
      rw [extendFib]
      have h1 : (fibListUpTo k).getD (k - 1) 0 = fibSpec k :=
        fibListUpTo_getD k k (by omega) le_rfl
      have h2 : (fibListUpTo k).getD (k - 2) 0 = fibSpec (k - 1) := by
        have h := fibListUpTo_getD k (k - 1) (by omega) (by omega)
        rwa [show k - 1 - 1 = k - 2 by omega] at h
      rw [length_fibListUpTo, h1, h2, ← fibSpec_rec k hk, ← fibListUpTo_succ,
        show k + (f + 1) = (k + 1) + f by omega]
      exact extendFib_fibListUpTo f (k + 1) (by omega)

/-- Full characterization of `getNthFibNumber` on a reachable memo state
and a valid index: it returns the `n`-th Fibonacci term and extends the
memo to cover index `n`. -/
theorem getNthFibNumber_spec (k : ℕ) (hk : 2 ≤ k) (n : ℤ) (hn : 1 ≤ n) :
    getNthFibNumber (fibListUpTo k) n =
      .ok (fibSpec n.toNat, fibListUpTo (max k n.toNat)) := by
  have hn0 : ¬ n = 0 := by omega
  have hn1 : ¬ n < 0 := by omega
  rw [getNthFibNumber, if_neg hn0, if_neg hn1, length_fibListUpTo]
  have htn : (n - 1).toNat = n.toNat - 1 := by omega
  by_cases hle : n ≤ (k : ℤ)
  · rw [if_pos hle, htn, max_eq_left (by omega),
      fibListUpTo_getD k n.toNat (by omega) (by omega)]
  · rw [if_neg hle]
    have hext : extendFib (fibListUpTo k) (n.toNat - k) = fibListUpTo n.toNat := by
      rw [extendFib_fibListUpTo (n.toNat - k) k hk,
        show k + (n.toNat - k) = n.toNat by omega]
    simp only [hext, htn, max_eq_right (by omega : k ≤ n.toNat),
      fibListUpTo_getD n.toNat n.toNat (by omega) le_rfl]

/-! ### Rounding lemmas -/

theorem pythonRound_ge_floor (q : ℚ) : ⌊q⌋ ≤ pythonRound q := by
  unfold pythonRound
  split_ifs <;> omega

theorem pythonRound_le_floor_add_one (q : ℚ) : pythonRound q ≤ ⌊q⌋ + 1 := by
  unfold pythonRound
  split_ifs <;> omega

/-- Round-half-to-even is monotone. -/
theorem pythonRound_mono {q r : ℚ} (h : q ≤ r) :
    pythonRound q ≤ pythonRound r := by
  have hab : ⌊q⌋ ≤ ⌊r⌋ := Int.floor_mono h
  rcases lt_or_eq_of_le hab with hlt | heq
  · calc pythonRound q ≤ ⌊q⌋ + 1 := pythonRound_le_floor_add_one q
      _ ≤ ⌊r⌋ := by omega
      _ ≤ pythonRound r := pythonRound_ge_floor r
  · have hfr : q - (⌊q⌋ : ℚ) ≤ r - (⌊r⌋ : ℚ) := by
      rw [← heq]
      linarith
    unfold pythonRound
    rw [← heq]
    rw [← heq] at hfr
    split_ifs <;> first | omega | linarith

/-! ### Dictionary lemmas -/

theorem any_uid_eq_false {l : List Record} {u : UID}
    (h : ∀ x ∈ l, x.uid ≠ u) : (l.any fun x => x.uid = u) = false := by
  simp only [List.any_eq_false, decide_eq_true_eq]
  exact h

theorem dictSet_absent (l : List Record) (r : Record)
    (h : ∀ x ∈ l, x.uid ≠ r.uid) : dictSet l r = l ++ [r] := by
  rw [dictSet, if_neg]
  rw [any_uid_eq_false h]
  simp

theorem foldl_dictSet_append : ∀ (l acc : List Record),
    ((acc ++ l).map Record.uid).Nodup → l.foldl dictSet acc = acc ++ l
  | [], acc, _ => by simp
  | r :: l, acc, h => by
      have hru : ∀ x ∈ acc, x.uid ≠ r.uid := by
        intro x hx heq
        rw [List.map_append, List.nodup_append] at h
        exact h.2.2 (List.mem_map_of_mem Record.uid hx)
          (by simp [heq])
      rw [List.foldl_cons, dictSet_absent acc r hru]
      have hassoc : acc ++ r :: l = (acc ++ [r]) ++ l := by simp
      rw [hassoc] at h
      rw [foldl_dictSet_append l (acc ++ [r]) h]
      simp

theorem mk'_records_of_nodup (l : List Record)
    (h : (l.map Record.uid).Nodup) : (Database.mk' l).records = l := by
  have h' : (([] ++ l).map Record.uid).Nodup := by simpa using h
  have := foldl_dictSet_append l [] h'
  simpa [Database.mk'] using this

/-! ### CRUD lemmas -/

theorem containsKey_iff (db : Database) (u : UID) :
    db.containsKey u = true ↔ ∃ r ∈ db.records, r.uid = u := by
  simp [Database.containsKey, List.any_eq_true]

theorem get_error_iff (db : Database) (u : UID) :
    (∃ e, db.get u = .error e) ↔ db.containsKey u = false := by
  unfold Database.get
  rcases hf : db.records.find? (fun r => decide (r.uid = u)) with _ | r
  · have hall : ∀ x ∈ db.records, ¬ x.uid = u := by
      intro x hx
      have := List.find?_eq_none.mp hf x hx
      simpa using this
    simp only [hf]
    constructor
    · intro _
      simpa [Database.containsKey] using hall
    · intro _
      exact ⟨_, rfl⟩
  · have hmem := List.mem_of_find?_eq_some hf
    have hp : r.uid = u := by simpa using List.find?_some hf
    simp only [hf]
    constructor
    · rintro ⟨e, he⟩
      exact absurd he (by simp)
    · intro hck
      rw [← Bool.not_eq_true] at hck
      exact absurd ((containsKey_iff db u).mpr ⟨r, hmem, hp⟩) hck

theorem get_ok_uid (db : Database) (u : UID) (r : Record)
    (h : db.get u = .ok r) : r.uid = u ∧ r ∈ db.records := by
  unfold Database.get at h
  rcases hf : db.records.find? (fun x => decide (x.uid = u)) with _ | r'
  · rw [hf] at h
    exact absurd h (by simp)
  · rw [hf] at h
    have hr : r' = r := by simpa using h
    subst hr
    exact ⟨by simpa using List.find?_some hf, List.mem_of_find?_eq_some hf⟩

theorem find?_map_update (u : UID) (r : Record) (hru : r.uid = u) :
    ∀ l : List Record, (l.any fun x => x.uid = u) = true →
      ((l.map fun x => if x.uid = u then r else x).find?
        (fun x => x.uid = u)) = some r
  | [], h => by simp at h
  | x :: xs, h => by
      by_cases hx : x.uid = u
      · simp [hx, hru]
      · have hxs : (xs.any fun y => y.uid = u) = true := by
          simp only [List.any_cons] at h
          simpa [hx] using h
        have ih := find?_map_update u r hru xs hxs
        simpa [hx] using ih

/-- After a successful `update r`, `get r.uid` returns `r`. -/
theorem get_update_self (db : Database) (r : Record)
    (h : db.containsKey r.uid = true) :
    (db.update r).1 = none ∧ (db.update r).2.get r.uid = .ok r := by
  rw [Database.update, if_pos h]
  refine ⟨rfl, ?_⟩
  have hany : (db.records.any fun x => x.uid = r.uid) = true := h
  rw [Database.get]
  rw [show dictSet db.records r
      = db.records.map fun x => if x.uid = r.uid then r else x by
    rw [dictSet, if_pos hany]]
  rw [find?_map_update r.uid r rfl db.records hany]

/-! ### Predictor lemmas -/

theorem assocGet_isSome_iff {α : Type} (l : List (UID × α)) (u : UID) :
    (assocGet l u).isSome = true ↔ u ∈ l.map Prod.fst := by
  induction l with
  | nil => simp [assocGet]
  | cons x xs ih =>
      rcases x with ⟨k, v⟩
      by_cases hx : k = u
      · subst hx
        simp [assocGet]
      · have hstep : assocGet ((k, v) :: xs) u = assocGet xs u := by
          simp [assocGet, hx]
        rw [hstep, ih, List.map_cons, List.mem_cons]
        constructor
        · exact Or.inr
        · rintro (rfl | h)
          · exact absurd rfl hx
          · exact h

theorem mem_keys_assocSet {α : Type} (l : List (UID × α)) (k u : UID) (v : α) :
    u ∈ (assocSet l k v).map Prod.fst ↔ u = k ∨ u ∈ l.map Prod.fst := by
  unfold assocSet
  by_cases hp : (l.any fun x => x.1 = k) = true
  · rw [if_pos hp]
    have hkeys : (l.map fun x => if x.1 = k then (k, v) else x).map Prod.fst
        = l.map Prod.fst := by
      rw [List.map_map]
      apply List.map_congr_left
      intro x _
      by_cases hx : x.1 = k
      · simp [hx]
      · simp [hx]
    rw [hkeys]
    constructor
    · exact Or.inr
    · rintro (rfl | h)
      · rcases List.any_eq_true.mp hp with ⟨x, hxl, hxk⟩
        have hxu : x.1 = u := by simpa using hxk
        exact hxu ▸ List.mem_map_of_mem Prod.fst hxl
      · exact h
  · rw [if_neg hp]
    simp [or_comm]

theorem mem_keys_foldl_subjStep :
    ∀ (l : List Record) (acc : List (UID × (ℚ × ℤ))) (u : UID),
      u ∈ ((l.foldl subjStep acc).map Prod.fst) ↔
        u ∈ acc.map Prod.fst ∨ ∃ s, Record.subject s ∈ l ∧ s.uid = u
  | [], acc, u => by simp
  | r :: l, acc, u => by
      rw [List.foldl_cons, mem_keys_foldl_subjStep l (subjStep acc r) u]
      cases r with
      | subject s =>
          simp only [subjStep, mem_keys_assocSet]
          constructor
          · rintro ((rfl | h) | h)
            · exact Or.inr ⟨s, by simp, rfl⟩
            · exact Or.inl h
            · obtain ⟨s', hs', hu⟩ := h
              exact Or.inr ⟨s', by simp [hs'], hu⟩
          · rintro (h | ⟨s', hs', hu⟩)
            · exact Or.inl (Or.inr h)
            · rcases List.mem_cons.mp hs' with heq | hmem
              · injection heq with he
                subst he
                exact Or.inl (Or.inl hu.symm)
              · exact Or.inr ⟨s', hmem, hu⟩
      | topic t =>
          simp only [subjStep]
          constructor
          · rintro (h | ⟨s', hs', hu⟩)
            · exact Or.inl h
            · exact Or.inr ⟨s', by simp [hs'], hu⟩
          · rintro (h | ⟨s', hs', hu⟩)
            · exact Or.inl h
            · rcases List.mem_cons.mp hs' with heq | hmem
              · cases heq
              · exact Or.inr ⟨s', hmem, hu⟩

/-- The domain of the `subjectWAndTup` dict is exactly the set of uids of
`Subject` records in the database. -/
theorem assocGet_subjectWAndTup_isSome (db : Database) (u : UID) :
    (assocGet (subjectWAndTup db) u).isSome = true ↔
      ∃ s, Record.subject s ∈ db.records ∧ s.uid = u := by
  rw [assocGet_isSome_iff, subjectWAndTup, mem_keys_foldl_subjStep]
  simp

/-- On a reachable memo state, a call with index `n ≥ 1` succeeds and the
memo stays reachable. -/
theorem validFibState_getNth {s : List ℤ} {n : ℤ}
    (hs : validFibState s) (hn : 1 ≤ n) :
    ∃ v s', getNthFibNumber s n = .ok (v, s') ∧ validFibState s' := by
  obtain ⟨k, hk, rfl⟩ := hs
  exact ⟨_, _, getNthFibNumber_spec k hk n hn,
    ⟨max k n.toNat, le_trans hk (le_max_left _ _), rfl⟩⟩

/-- If some topic in the remaining record list has a subject uid outside
the dict domain, and every topic index is valid, the prediction loop
raises a `KeyError`. -/
theorem predictLoop_keyError (subjT : List (UID × (ℚ × ℤ))) (now : DateTime) :
    ∀ (l : List Record) (fibS : List ℤ) (acc : List (UID × DateTime)),
      validFibState fibS →
      (∀ t, Record.topic t ∈ l → 1 ≤ t.fibNumber) →
      (∃ t, Record.topic t ∈ l ∧ assocGet subjT t.subjectUID = none) →
      ∃ u, predictLoop subjT now l fibS acc = .error (.keyError u)
  | [], _, _, _, _, hex => by simp at hex
  | .subject s :: l, fibS, acc, hv, hfib, hex => by
      rw [predictLoop]
      apply predictLoop_keyError subjT now l fibS acc hv
        (fun t ht => hfib t (by simp [ht]))
      obtain ⟨t, ht, hnone⟩ := hex
      refine ⟨t, ?_, hnone⟩
      rcases List.mem_cons.mp ht with heq | hmem
      · cases heq
      · exact hmem
  | .topic t :: l, fibS, acc, hv, hfib, hex => by
      obtain ⟨v, fibS', hok, hv'⟩ := validFibState_getNth hv (hfib t (by simp))
      rw [predictLoop, hok]
      rcases hg : assocGet subjT t.subjectUID with _ | ⟨w, b⟩
      · exact ⟨t.subjectUID.uid, rfl⟩
      · obtain ⟨t', ht', hnone⟩ := hex
        have ht'l : Record.topic t' ∈ l := by
          rcases List.mem_cons.mp ht' with heq | hmem
          · injection heq with he
            subst he
            rw [hg] at hnone
            cases hnone
          · exact hmem
        exact predictLoop_keyError subjT now l fibS' _ hv'
          (fun t2 h2 => hfib t2 (by simp [h2])) ⟨t', ht'l, hnone⟩

theorem subjStep_congr (acc : List (UID × (ℚ × ℤ))) :
    ∀ {r1 r2 : Record}, sameUpToActive r1 r2 → subjStep acc r1 = subjStep acc r2
  | .subject s1, .subject s2, h => by
      obtain ⟨h1, _, h3, h4⟩ := h
      simp only [subjStep, h1, h3, h4]
  | .topic _, .topic _, _ => rfl
  | .subject _, .topic _, h => h.elim
  | .topic _, .subject _, h => h.elim

theorem foldl_subjStep_congr :
    ∀ {l1 l2 : List Record}, List.Forall₂ sameUpToActive l1 l2 →
      ∀ acc, l1.foldl subjStep acc = l2.foldl subjStep acc
  | _, _, .nil, _ => rfl
  | _, _, .cons h hs, acc => by
      rw [List.foldl_cons, List.foldl_cons, subjStep_congr acc h]
      exact foldl_subjStep_congr hs _

theorem predictLoop_congr (subjT : List (UID × (ℚ × ℤ))) (now : DateTime) :
    ∀ {l1 l2 : List Record}, List.Forall₂ sameUpToActive l1 l2 →
      ∀ fibS acc, predictLoop subjT now l1 fibS acc = predictLoop subjT now l2 fibS acc
  | _, _, .nil, _, _ => rfl
  | _, _, .cons (a := r1) (b := r2) h hs, fibS, acc => by
      cases r1 with
      | subject s1 =>
          cases r2 with
          | subject s2 =>
              rw [predictLoop, predictLoop]
              exact predictLoop_congr subjT now hs fibS acc
          | topic t2 => exact h.elim
      | topic t1 =>
          cases r2 with
          | subject s2 => exact h.elim
          | topic t2 =>
              obtain ⟨h1, _, h3, _, h5⟩ := h
              rw [predictLoop, predictLoop, h1, h3, h5]
              rcases getNthFibNumber fibS t2.fibNumber with e | ⟨v, fibS'⟩
              · rfl
              · rcases assocGet subjT t2.subjectUID with _ | ⟨w, b⟩
                · rfl
                · exact predictLoop_congr subjT now hs fibS' _

/-- `Predictor.predict` ignores the `active` flags entirely. -/
theorem predict_congr (now : DateTime) (fibS : List ℤ) {db1 db2 : Database}
    (h : List.Forall₂ sameUpToActive db1.records db2.records) :
    predict now db1 fibS = predict now db2 fibS := by
  rw [predict, predict, subjectWAndTup, subjectWAndTup, foldl_subjStep_congr h]
  exact predictLoop_congr _ now h fibS []

/-! ## Claim theorems -/

/-- C2 (code evaluation): `Topic.__init__`'s `dTime` default expression is
evaluated once, at module import, so a topic constructed WITHOUT a
`dTime` argument at a later wall-clock time still carries the
module-import timestamp: with import time 0 and construction time 1,
`lastStudy` is 0, not the topic's creation time 1. -/
theorem claim_C2_default_time_bug :
    (Topic.init ⟨0⟩ ⟨"t"⟩ "Algebra" ⟨"s"⟩ true 2 none).lastStudy = ⟨0⟩ ∧
    (Topic.init ⟨0⟩ ⟨"t"⟩ "Algebra" ⟨"s"⟩ true 2 none).lastStudy ≠ ⟨1⟩ :=
  ⟨rfl, by decide⟩

/-- C3: `insert` fails iff the uid is already a key; `get`, `update` and
`delete` fail iff the uid is absent; and a failing `insert` or `update`
leaves the record mapping unchanged. -/
theorem claim_C3_crud (db : Database) (r : Record) (u : UID) :
    ((db.insert r).1 ≠ none ↔ db.containsKey r.uid = true) ∧
    ((∃ e, db.get u = .error e) ↔ ¬ db.containsKey u = true) ∧
    ((db.update r).1 ≠ none ↔ ¬ db.containsKey r.uid = true) ∧
    ((db.delete u).1 ≠ none ↔ ¬ db.containsKey u = true) ∧
    ((db.insert r).1 ≠ none → (db.insert r).2 = db) ∧
    ((db.update r).1 ≠ none → (db.update r).2 = db) := by
  refine ⟨?_, ?_, ?_, ?_, ?_, ?_⟩
  · unfold Database.insert
    by_cases h : db.containsKey r.uid = true <;> simp [h]
  · rw [get_error_iff]
    simp [Bool.not_eq_true]
  · unfold Database.update
    by_cases h : db.containsKey r.uid = true <;> simp [h]
  · unfold Database.delete
    by_cases h : db.containsKey u = true <;> simp [h]
  · unfold Database.insert
    by_cases h : db.containsKey r.uid = true <;> simp [h]
  · unfold Database.update
    by_cases h : db.containsKey r.uid = true <;> simp [h]

/-- Witness for C3 on a concrete database: a duplicate insert fails and
leaves the store unchanged, and `get` of an absent uid fails. -/
theorem claim_C3_crud_witness :
    ((dbMixed.insert (.subject ⟨⟨"s"⟩, "Math", true, 1, 0⟩)).1 ≠ none ∧
      (dbMixed.insert (.subject ⟨⟨"s"⟩, "Math", true, 1, 0⟩)).2 = dbMixed) ∧
    (∃ e, dbMixed.get ⟨"absent"⟩ = .error e) := by
  have h := claim_C3_crud dbMixed (.subject ⟨⟨"s"⟩, "Math", true, 1, 0⟩) ⟨"absent"⟩
  have h1 : (dbMixed.insert (.subject ⟨⟨"s"⟩, "Math", true, 1, 0⟩)).1 ≠ none := by
    decide
  exact ⟨⟨h1, h.2.2.2.2.1 h1⟩, h.2.1.mpr (by decide)⟩

/-- C4: on every reachable engine state, `nthFibonacci(1) = 1`,
`nthFibonacci(2) = 1`, and for every `n > 2` the value returned for `n`
is the sum of the values returned for `n - 1` and `n - 2`. -/
theorem claim_C4_fib_recurrence (s : List ℤ) (hs : validFibState s) :
    (∃ s1, getNthFibNumber s 1 = .ok (1, s1)) ∧
    (∃ s2, getNthFibNumber s 2 = .ok (1, s2)) ∧
    ∀ n : ℤ, 2 < n →
      ∃ a b c sa sb sc,
        getNthFibNumber s (n - 1) = .ok (a, sa) ∧
        getNthFibNumber s (n - 2) = .ok (b, sb) ∧
        getNthFibNumber s n = .ok (c, sc) ∧ c = a + b := by
  obtain ⟨k, hk, rfl⟩ := hs
  refine ⟨⟨_, getNthFibNumber_spec k hk 1 (by omega)⟩,
          ⟨_, getNthFibNumber_spec k hk 2 (by omega)⟩, ?_⟩
  intro n hn
  refine ⟨fibSpec (n - 1).toNat, fibSpec (n - 2).toNat, fibSpec n.toNat,
    _, _, _,
    getNthFibNumber_spec k hk (n - 1) (by omega),
    getNthFibNumber_spec k hk (n - 2) (by omega),
    getNthFibNumber_spec k hk n (by omega), ?_⟩
  obtain ⟨j, hj⟩ : ∃ j, n.toNat = j + 2 := ⟨n.toNat - 2, by omega⟩
  rw [show (n - 1).toNat = j + 1 by omega, show (n - 2).toNat = j by omega, hj]
  rfl

/-- Witness for C4 at the initial memo state and `n = 5`. -/
theorem claim_C4_fib_recurrence_witness :
    ∃ a b c sa sb sc,
      getNthFibNumber fibInit (5 - 1) = .ok (a, sa) ∧
      getNthFibNumber fibInit (5 - 2) = .ok (b, sb) ∧
      getNthFibNumber fibInit 5 = .ok (c, sc) ∧ c = a + b :=
  (claim_C4_fib_recurrence fibInit ⟨2, by decide, rfl⟩).2.2 5 (by decide)

/-- C5: decoding the JSON encoding of any constructed Subject or Topic
returns the record unchanged, field for field, including the exact
`lastStudy` timestamp. -/
theorem claim_C5_roundtrip (s : Subject) (t : Topic) :
    Subject.fromJSON s.toJSON = .ok s ∧ Topic.fromJSON t.toJSON = .ok t :=
  ⟨rfl, rfl⟩

/-- C9: `nthFibonacci` fails with a `ValueError` for `n = 0` and every
`n < 0`, and returns a value for every `n ≥ 1` (on every reachable memo
state). -/
theorem claim_C9_invalid_argument (s : List ℤ) (n : ℤ) (hs : validFibState s) :
    ((n = 0 ∨ n < 0) → ∃ msg, getNthFibNumber s n = .error (.valueError msg)) ∧
    (1 ≤ n → ∃ v s', getNthFibNumber s n = .ok (v, s')) := by
  constructor
  · rintro (rfl | hneg)
    · exact ⟨_, rfl⟩
    · exact ⟨"Can't have a negative fib number.",
        by rw [getNthFibNumber, if_neg (by omega), if_pos hneg]⟩
  · intro hn
    obtain ⟨v, s', h, _⟩ := validFibState_getNth hs hn
    exact ⟨v, s', h⟩

/-- Witness for C9 at `n = 0`, `n = -1` and `n = 3` on the initial memo
state. -/
theorem claim_C9_invalid_argument_witness :
    (∃ msg, getNthFibNumber fibInit 0 = .error (.valueError msg)) ∧
    (∃ msg, getNthFibNumber fibInit (-1) = .error (.valueError msg)) ∧
    (∃ v s', getNthFibNumber fibInit 3 = .ok (v, s')) :=
  ⟨(claim_C9_invalid_argument fibInit 0 ⟨2, by decide, rfl⟩).1 (Or.inl rfl),
   (claim_C9_invalid_argument fibInit (-1) ⟨2, by decide, rfl⟩).1 (Or.inr (by decide)),
   (claim_C9_invalid_argument fibInit 3 ⟨2, by decide, rfl⟩).2 (by decide)⟩

/-- C1 counterexample: in the spec scenario (subject `weight = 2.5`,
`bias = 0`, topic `fibNumber = 2`, so `F(2) = 1`), `predict` sends the
topic uid to `now + 2 days`, not `now + 3 days`: Python's built-in
`round` is half-to-even, so `round(1 * 2.5) = round(2.5) = 2`. -/
theorem claim_C1_counterexample :
    predict ⟨0⟩ dbScenario fibInit
        = .ok ([(⟨"t"⟩, DateTime.addDays ⟨0⟩ 2)], fibInit) ∧
      DateTime.addDays ⟨0⟩ 2 ≠ DateTime.addDays ⟨0⟩ 3 := by
  constructor
  · have hstep : predict ⟨0⟩ dbScenario fibInit
        = .ok ([(⟨"t"⟩, DateTime.addDays ⟨0⟩ (actualPred 1 (5 / 2) 0))],
               fibInit) := rfl
    rw [hstep]
    have hap : actualPred 1 (5 / 2) 0 = 2 := by
      unfold actualPred
      rw [show ((1 : ℤ) : ℚ) * (5 / 2) + ((0 : ℤ) : ℚ)
          = ((2 : ℤ) : ℚ) + 1 / 2 by norm_num]
      exact pythonRound_add_half_even 2 (by decide)
    rw [hap]
  · decide

/-- C1 amended: in the spec scenario, `predict` sends the topic's uid to
`now + round(1 * 2.5) = now + 2` days (Python rounds half to even), for
every call time, lastStudy time, names, and active flags. -/
theorem claim_C1_amended (now dt : DateTime) (sn tn : String) (sa ta : Bool) :
    predict now ⟨[.subject ⟨⟨"s"⟩, sn, sa, 5 / 2, 0⟩,
                  .topic ⟨⟨"t"⟩, tn, ⟨"s"⟩, ta, dt, 2⟩]⟩ fibInit
      = .ok ([(⟨"t"⟩, now.addDays 2)], fibInit) := by
  have hstep : predict now ⟨[.subject ⟨⟨"s"⟩, sn, sa, 5 / 2, 0⟩,
                  .topic ⟨⟨"t"⟩, tn, ⟨"s"⟩, ta, dt, 2⟩]⟩ fibInit
      = .ok ([(⟨"t"⟩, now.addDays (actualPred 1 (5 / 2) 0))], fibInit) := rfl
  rw [hstep]
  have hap : actualPred 1 (5 / 2) 0 = 2 := by
    unfold actualPred
    rw [show ((1 : ℤ) : ℚ) * (5 / 2) + ((0 : ℤ) : ℚ)
        = ((2 : ℤ) : ℚ) + 1 / 2 by norm_num]
    exact pythonRound_add_half_even 2 (by decide)
  rw [hap]

/-- C6: `query(kinds, predicate)` returns a new Database containing
exactly the records whose runtime variant is in `kinds` and for which the
predicate is true, and the source Database's record mapping is returned
unchanged. -/
theorem claim_C6_query (db : Database) (kinds : List RecordKind)
    (q : Record → Bool) (h : (db.records.map Record.uid).Nodup) :
    (∀ r : Record, r ∈ (db.query kinds q).1.records ↔
      r ∈ db.records ∧ r.kind ∈ kinds ∧ q r = true) ∧
    (db.query kinds q).2 = db := by
  refine ⟨?_, rfl⟩
  intro r
  have hsub : ((db.records.filter
      fun x => kinds.contains x.kind && q x).map Record.uid).Nodup :=
    h.sublist ((List.filter_sublist db.records).map Record.uid)
  show r ∈ (Database.mk' (db.records.filter
      fun x => kinds.contains x.kind && q x)).records ↔ _
  rw [mk'_records_of_nodup _ hsub, List.mem_filter]
  simp [List.elem_iff, and_assoc]

/-- Witness for C6 on a concrete database: querying for active Topics
keeps exactly the active topic, no subject, and the source is
unchanged. -/
theorem claim_C6_query_witness :
    (∀ r : Record,
      r ∈ (dbMixed.query [.topic]
        (fun r => match r with | .topic t => t.active | .subject _ => false)).1.records ↔
      r ∈ dbMixed.records ∧ r.kind ∈ [RecordKind.topic] ∧
        (match r with | .topic t => t.active | .subject _ => false) = true) ∧
    (dbMixed.query [.topic]
      (fun r => match r with | .topic t => t.active | .subject _ => false)).2
        = dbMixed :=
  claim_C6_query dbMixed [.topic]
    (fun r => match r with | .topic t => t.active | .subject _ => false)
    (by decide)

/-- C7 counterexample: with subject weight `-1` (weights are
unconstrained), completing the topic increments `fibNumber` from 2 to 3,
but the predicted offset strictly DECREASES from `-1` to `-2` days, so
the offset is not monotonically non-decreasing in `fibNumber` for every
fixed weight and bias. -/
theorem claim_C7_counterexample :
    completeTopic dbNegWeight ⟨"t"⟩ = (none, dbNegWeightDone) ∧
    predict ⟨0⟩ dbNegWeight fibInit
        = .ok ([(⟨"t"⟩, DateTime.addDays ⟨0⟩ (-1))], fibInit) ∧
    predict ⟨0⟩ dbNegWeightDone fibInit
        = .ok ([(⟨"t"⟩, DateTime.addDays ⟨0⟩ (-2))], fibListUpTo 3) ∧
    (DateTime.addDays ⟨0⟩ (-2)).usec < (DateTime.addDays ⟨0⟩ (-1)).usec := by
  refine ⟨by decide, ?_, ?_, by decide⟩
  · have hstep : predict ⟨0⟩ dbNegWeight fibInit
        = .ok ([(⟨"t"⟩, DateTime.addDays ⟨0⟩ (actualPred 1 (-1) 0))],
               fibInit) := rfl
    rw [hstep]
    have hap : actualPred 1 (-1) 0 = -1 := by
      unfold actualPred
      rw [show ((1 : ℤ) : ℚ) * (-1) + ((0 : ℤ) : ℚ) = ((-1 : ℤ) : ℚ) by norm_num]
      exact pythonRound_intCast (-1)
    rw [hap]
  · have hstep : predict ⟨0⟩ dbNegWeightDone fibInit
        = .ok ([(⟨"t"⟩, DateTime.addDays ⟨0⟩ (actualPred 2 (-1) 0))],
               fibListUpTo 3) := rfl
    rw [hstep]
    have hap : actualPred 2 (-1) 0 = -2 := by
      unfold actualPred
      rw [show ((2 : ℤ) : ℚ) * (-1) + ((0 : ℤ) : ℚ) = ((-2 : ℤ) : ℚ) by norm_num]
      exact pythonRound_intCast (-2)
    rw [hap]

/-- C7 amended: `completeTopic` increments the stored topic's `fibNumber`
by exactly 1, and the predicted day offset `round(F(n)*weight + bias)` is
monotonically non-decreasing in `fibNumber = n ≥ 1` PROVIDED the
subject's weight is non-negative (for a negative weight it can strictly
decrease, as the counterexample shows). -/
theorem claim_C7_amended :
    (∀ (db : Database) (u : UID) (t : Topic),
      db.get u = .ok (.topic t) →
        (completeTopic db u).1 = none ∧
        (completeTopic db u).2.get u
          = .ok (.topic { t with fibNumber := t.fibNumber + 1 })) ∧
    (∀ (w : ℚ) (b : ℤ) (n : ℕ), 0 ≤ w → 1 ≤ n →
      actualPred (fibSpec n) w b ≤ actualPred (fibSpec (n + 1)) w b) := by
  constructor
  · intro db u t h
    have hgu := get_ok_uid db u (.topic t) h
    have ht_uid : (Record.topic t).uid = u := hgu.1
    have hck : db.containsKey u = true :=
      (containsKey_iff db u).mpr ⟨_, hgu.2, hgu.1⟩
    have hr_uid : (Record.topic { t with fibNumber := t.fibNumber + 1 }).uid
        = u := ht_uid
    have hupd := get_update_self db
      (.topic { t with fibNumber := t.fibNumber + 1 })
      (by rw [hr_uid]; exact hck)
    rw [hr_uid] at hupd
    rw [completeTopic, h]
    exact hupd
  · intro w b n hw hn
    unfold actualPred
    apply pythonRound_mono
    have hf : fibSpec n ≤ fibSpec (n + 1) := fibSpec_le_succ n hn
    have hfq : (fibSpec n : ℚ) ≤ (fibSpec (n + 1) : ℚ) := by exact_mod_cast hf
    have hm := mul_le_mul_of_nonneg_right hfq hw
    linarith

/-- Witness for C7 amended: completing topic `t1` of the concrete mixed
database stores `fibNumber = 3`, and with weight 1, bias 0 the offsets
for `n = 2, 3` are non-decreasing. -/
theorem claim_C7_amended_witness :
    ((completeTopic dbMixed ⟨"t1"⟩).1 = none ∧
      (completeTopic dbMixed ⟨"t1"⟩).2.get ⟨"t1"⟩
        = .ok (.topic ⟨⟨"t1"⟩, "Algebra", ⟨"s"⟩, true, ⟨0⟩, 2 + 1⟩)) ∧
    actualPred (fibSpec 2) 1 0 ≤ actualPred (fibSpec 3) 1 0 :=
  ⟨claim_C7_amended.1 dbMixed ⟨"t1"⟩ ⟨⟨"t1"⟩, "Algebra", ⟨"s"⟩, true, ⟨0⟩, 2⟩ rfl,
   claim_C7_amended.2 1 0 2 zero_le_one (by decide)⟩

/-- C8: if any topic's `subjectUID` is not the uid of any subject in the
database, `predict` raises a `KeyError` (the MissingReference condition)
instead of returning a mapping (on a reachable memo state, with every
topic's Fibonacci index valid so that no `ValueError` preempts it). -/
theorem claim_C8_missing_reference (now : DateTime) (db : Database)
    (fibS : List ℤ) (hv : validFibState fibS)
    (hfib : ∀ t, Record.topic t ∈ db.records → 1 ≤ t.fibNumber)
    (hdangling : ∃ t, Record.topic t ∈ db.records ∧
      ∀ s, Record.subject s ∈ db.records → s.uid ≠ t.subjectUID) :
    ∃ u, predict now db fibS = .error (.keyError u) := by
  rw [predict]
  apply predictLoop_keyError (subjectWAndTup db) now db.records fibS [] hv hfib
  obtain ⟨t, ht, hno⟩ := hdangling
  refine ⟨t, ht, ?_⟩
  rcases hg : assocGet (subjectWAndTup db) t.subjectUID with _ | v
  · rfl
  · exfalso
    have hsome : (assocGet (subjectWAndTup db) t.subjectUID).isSome = true := by
      rw [hg]
      rfl
    obtain ⟨s, hs, hsu⟩ :=
      (assocGet_subjectWAndTup_isSome db t.subjectUID).mp hsome
    exact hno s hs hsu

/-- Witness for C8: on the concrete database whose topic references the
absent subject uid `"ghost"`, `predict` raises a `KeyError`. -/
theorem claim_C8_missing_reference_witness :
    ∃ u, predict ⟨0⟩ dbDangling fibInit = .error (.keyError u) :=
  claim_C8_missing_reference ⟨0⟩ dbDangling fibInit ⟨2, by decide, rfl⟩
    (by intro t ht; simp [dbDangling] at ht; simp [ht])
    ⟨⟨⟨"t"⟩, "Algebra", ⟨"ghost"⟩, true, ⟨0⟩, 2⟩, by simp [dbDangling],
      by intro s hs; simp [dbDangling] at hs; simp [hs]⟩

/-- C10: the output of `predict` does not depend on the `active` flags:
two databases whose records agree on everything except possibly the
`active` fields produce identical predictions (every topic is predicted
whether active or not). -/
theorem claim_C10_active_independent (now : DateTime) (fibS : List ℤ)
    (db1 db2 : Database)
    (h : List.Forall₂ sameUpToActive db1.records db2.records) :
    predict now db1 fibS = predict now db2 fibS :=
  predict_congr now fibS h

/-- Witness for C10: the concrete mixed database and its copy with every
`active` flag flipped produce the same predictions. -/
theorem claim_C10_active_independent_witness :
    predict ⟨0⟩ dbMixed fibInit = predict ⟨0⟩ dbMixedFlipped fibInit :=
  claim_C10_active_independent ⟨0⟩ fibInit dbMixed dbMixedFlipped
    (.cons ⟨rfl, rfl, rfl, rfl⟩
      (.cons ⟨rfl, rfl, rfl, rfl, rfl⟩
        (.cons ⟨rfl, rfl, rfl, rfl, rfl⟩ .nil)))
